import Mathlib

/-!
# gemini4me: request-to-file resolution

A shallow embedding of `src/main.go` (the `GeminiServer._handle` resolver and its
helpers `serve`, `failure`, `notFound`, and the `init` content-type registrations),
together with the Go standard-library routines it calls (`path.Clean`, `path.Join`,
`filepath.Ext`, `mime.TypeByExtension`).

Go strings are modelled by Lean strings, and the path routines work on their
character lists.  The path routines only ever compare bytes with `'/'` and `'.'`,
both ASCII, so working character-wise instead of byte-wise does not change them.
-/

namespace Gemini4me

/-! ## `path.Clean`, `path.Join`, `filepath.Ext` -/

/-- The inner loop of the `..` case of `path.Clean`:
`for out.w > dotdot && out.index(out.w) != '/' { out.w-- }`, returning the final `out.w`. -/
def backtrack (buf : List Char) (dotdot : Nat) : Nat → Nat
  | 0 => 0
  | w + 1 =>
    if dotdot < w + 1 ∧ buf.getD (w + 1) '/' ≠ '/' then backtrack buf dotdot w else w + 1

/-- The `..` case of `path.Clean`, on the bytes written so far (`out`, of length `out.w`):
backtrack when `out.w > dotdot`, else append a `..` element when the path is not rooted,
else leave the buffer alone.  Returns the new buffer and the new `dotdot`. -/
def cleanDotDot (rooted : Bool) (out : List Char) (dotdot : Nat) : List Char × Nat :=
  if dotdot < out.length then
    (out.take (backtrack out dotdot (out.length - 1)), dotdot)
  else if !rooted then
    let out1 := if 0 < out.length then out ++ ['/'] else out
    let out2 := out1 ++ ['.', '.']
    (out2, out2.length)
  else
    (out, dotdot)

/-- The test `rooted && out.w != 1 || !rooted && out.w != 0` of `path.Clean`: whether a
slash must be written before copying a real path element. -/
def needSlash (rooted : Bool) (out : List Char) : Bool :=
  (rooted && out.length != 1) || (!rooted && out.length != 0)

/-- The main loop `for r < n` of `path.Clean`, reading the unread input `path[r:]`.
`inElem` is true while the loop `for ; r < n && path[r] != '/'; r++` that copies a real
path element is running; otherwise the reader stands at the start of an element and the
`switch` of the outer loop is taken. -/
def cleanLoop (rooted : Bool) : List Char → Bool → List Char → Nat → List Char
  | [], _, out, _ => out
  | c :: rest, true, out, dotdot =>
    if c = '/' then cleanLoop rooted rest false out dotdot
    else cleanLoop rooted rest true (out ++ [c]) dotdot
  | c :: rest, false, out, dotdot =>
    if c = '/' then
      -- empty path element
      cleanLoop rooted rest false out dotdot
    else if c = '.' ∧ (rest = [] ∨ rest.head? = some '/') then
      -- . element
      cleanLoop rooted rest false out dotdot
    else if c = '.' ∧ rest.head? = some '.' ∧
        (rest.tail = [] ∨ rest.tail.head? = some '/') then
      -- .. element: remove to last /
      match rest with
      | [] => out
      | _ :: rest2 =>
        let st := cleanDotDot rooted out dotdot
        cleanLoop rooted rest2 false st.1 st.2
    else
      -- real path element: add slash if needed, then copy the element
      let out1 := if needSlash rooted out then out ++ ['/'] else out
      cleanLoop rooted rest true (out1 ++ [c]) dotdot

/-- Go `path.Clean` on character lists. -/
def cleanChars (path : List Char) : List Char :=
  match path with
  | [] => ['.']
  | c :: rest =>
    let out :=
      if c = '/' then cleanLoop true rest false ['/'] 1
      else cleanLoop false (c :: rest) false [] 0
    -- Turn empty string into "."
    if out.length = 0 then ['.'] else out

/-- Go `path.Clean`. -/
def Clean (path : String) : String := ⟨cleanChars path.data⟩

/-- The buffer built by `path.Join` before cleaning: the non-empty-prefix rule
`if len(buf) > 0 || e != ""` and the separator `'/'`. -/
def joinBuf : List Char → List String → List Char
  | buf, [] => buf
  | buf, e :: es =>
    if 0 < buf.length ∨ e ≠ "" then
      joinBuf ((if 0 < buf.length then buf ++ ['/'] else buf) ++ e.data) es
    else joinBuf buf es

/-- Go `path.Join`. -/
def Join (elem : List String) : String :=
  if (elem.map String.length).sum = 0 then ""
  else Clean ⟨joinBuf [] elem⟩

/-- The backward scan of `filepath.Ext` over the reversed path; `acc` holds `path[i+1:]`. -/
def extScan : List Char → List Char → List Char
  | [], _ => []
  | c :: before, acc =>
    if c = '/' then []
    else if c = '.' then '.' :: acc
    else extScan before (c :: acc)

/-- Go `filepath.Ext` (with `/` as the path separator). -/
def Ext (path : String) : String := ⟨extScan path.data.reverse []⟩

/-! ## `mime.AddExtensionType`, `mime.TypeByExtension` -/

/-- The two extension maps of Go package `mime`: `mimeTypes` (case-sensitive) and
`mimeTypesLower`, as association lists in which the first entry for a key is the
stored one. -/
structure MimeTables where
  mimeTypes : List (String × String)
  mimeTypesLower : List (String × String)

/-- ASCII lower-casing of one byte, `c + ('a' - 'A')` for `'A' <= c <= 'Z'`. -/
def asciiLower (c : Char) : Char :=
  if 'A' ≤ c ∧ c ≤ 'Z' then Char.ofNat (c.toNat + 32) else c

/-- The key used for `mimeTypesLower`: the ASCII lower-casing when every byte is below
`utf8RuneSelf = 0x80`, and `strings.ToLower` (passed as `toLower`) on the slow path. -/
def lowerExt (toLower : String → String) (ext : String) : String :=
  if ext.data.any (fun c => 0x80 ≤ c.toNat) then toLower ext
  else ⟨ext.data.map asciiLower⟩

/-- Go `mime.TypeByExtension`: case-sensitive lookup first, then the lower-cased lookup,
and the empty string when `ext` has no associated type. -/
def TypeByExtension (toLower : String → String) (m : MimeTables) (ext : String) : String :=
  match m.mimeTypes.lookup ext with
  | some v => v
  | none =>
    match m.mimeTypesLower.lookup (lowerExt toLower ext) with
    | some s => s
    | none => ""

/-- Go `mime.setExtensionType` for a media type written without parameters (as all the
calls of `init` are): a `text/` type gets `charset=utf-8`, and both maps are updated. -/
def setExtensionType (toLower : String → String) (m : MimeTables)
    (extension mimeType : String) : MimeTables :=
  let mimeType1 :=
    if mimeType.data.take 5 = "text/".data then mimeType ++ "; charset=utf-8" else mimeType
  { mimeTypes := (extension, mimeType1) :: m.mimeTypes
    mimeTypesLower := (lowerExt toLower extension, mimeType1) :: m.mimeTypesLower }

/-- Go `mime.AddExtensionType`: an extension without a leading dot is refused and the
tables are unchanged. -/
def AddExtensionType (toLower : String → String) (m : MimeTables)
    (ext typ : String) : MimeTables :=
  if ext.data.head? = some '.' then setExtensionType toLower m ext typ else m

/-- The package `init` of `main.go`: the three registrations, on top of the tables `m`
that package `mime` starts with. -/
def init (toLower : String → String) (m : MimeTables) : MimeTables :=
  let m1 := AddExtensionType toLower m ".gem" "text/gemini"
  let m2 := AddExtensionType toLower m1 ".gemini" "text/gemini"
  AddExtensionType toLower m2 ".gmi" "text/gemini"

/-- The content type that `init` stores for the three gemini extensions. -/
def geminiType : String := "text/gemini; charset=utf-8"

/-! ## The world outside the program -/

/-- The classification of an `os` error that the program looks at: `os.IsNotExist`
or not. -/
inductive FsError where
  | notExist
  | other
deriving DecidableEq, Repr

/-- Go `os.IsNotExist` on a non-nil error. -/
def IsNotExist : FsError → Bool
  | .notExist => true
  | .other => false

/-- The part of `os.FileInfo` that the program reads. -/
structure FileInfo where
  IsDir : Bool
deriving DecidableEq, Repr

/-- An open `*os.File`: whether the handle is on a directory, and the bytes that reading
it yields. -/
structure File where
  IsDir : Bool
  bytes : String
deriving DecidableEq, Repr

/-- The part of `*url.URL` that the program reads. -/
structure URL where
  Path : String
deriving DecidableEq, Repr

/-- Everything `_handle` calls that is not in `main.go`: `url.Parse`, `os.Stat`,
`os.Open`, `strings.ToLower` and the tables package `mime` starts with. -/
structure World where
  urlParse : String → Except String URL
  Stat : String → Except FsError FileInfo
  Open : String → Except FsError File
  toLower : String → String
  sysMime : MimeTables

/-- A filesystem call made while handling a request. -/
inductive Syscall where
  | stat (name : String)
  | openFile (name : String)
deriving DecidableEq, Repr

/-! ## `main.go` -/

/-- The `gemini.Request` field that the program reads. -/
structure Request where
  URL : String
deriving DecidableEq, Repr

/-- The four `gemini.Status*` constants that `main.go` uses. -/
inductive Status where
  | StatusSuccess
  | StatusNotFound
  | StatusBadRequest
  | StatusTemporaryFailure
deriving DecidableEq, Repr

/-- A `gemini.Response`; `Body` is `none` for a nil body. -/
structure Response where
  Status : Status
  Meta : String
  Body : Option File
deriving DecidableEq, Repr

/-- The type `GeminiServer` of `main.go`. -/
structure GeminiServer where
  RootDirectory : String
  DefaultFile : String
  Extension : String
deriving DecidableEq, Repr

/-- The function `NewConfig` of `main.go`, restricted to the three fields that reach the
server. -/
def NewConfig : GeminiServer :=
  { RootDirectory := ".", DefaultFile := "index", Extension := ".gem" }

/-- The function `failure` of `main.go`. -/
def failure (str : String) : Response :=
  { Status := .StatusTemporaryFailure, Meta := str, Body := none }

/-- The function `notFound` of `main.go`. -/
def notFound : Response :=
  { Status := .StatusNotFound, Meta := "Not Found!", Body := none }

/-- The function `serve` of `main.go`, with the filesystem calls it makes. -/
def serve (w : World) (filename : String) : Response × List Syscall :=
  match w.Open filename with
  | .error err =>
    if IsNotExist err then (notFound, [.openFile filename])
    else (failure "Open File Issue", [.openFile filename])
  | .ok f =>
    ({ Status := .StatusSuccess
       Meta := TypeByExtension w.toLower (init w.toLower w.sysMime) (Ext filename)
       Body := some f }, [.openFile filename])

/-- Put the calls `ops` before those of a later step. -/
def after (ops : List Syscall) (res : Response × List Syscall) : Response × List Syscall :=
  (res.1, ops ++ res.2)

/-- The directory branch of `_handle` (`if info.IsDir()`), entered with the joined path
`fp` of the request. -/
def handleDir (w : World) (g : GeminiServer) (fp : String) : Response × List Syscall :=
  let ifp := Join [fp, g.DefaultFile ++ g.Extension]
  match w.Stat ifp with
  | .error err =>
    if IsNotExist err then (notFound, [.stat ifp])
    else (failure "File Read Issue", [.stat ifp])
  | .ok info =>
    if info.IsDir then (failure "Folder Loop", [.stat ifp])
    else after [.stat ifp] (serve w ifp)

/-- The method `GeminiServer._handle` of `main.go`, with the filesystem calls it makes in
order. -/
def _handle (w : World) (g : GeminiServer) (r : Request) : Response × List Syscall :=
  match w.urlParse r.URL with
  | .error _ => ({ Status := .StatusBadRequest, Meta := "Bad URL", Body := none }, [])
  | .ok u =>
    let fp := Join [g.RootDirectory, u.Path]
    match w.Stat fp with
    | .error err =>
      if IsNotExist err then
        if Ext fp = "" then after [.stat fp] (serve w (fp ++ g.Extension))
        else (notFound, [.stat fp])
      else
        ({ Status := .StatusTemporaryFailure, Meta := "File Lookup Issue", Body := none },
          [.stat fp])
    | .ok info =>
      if info.IsDir then after [.stat fp] (handleDir w g fp)
      else after [.stat fp] (serve w fp)

/-! ## Filesystem snapshots -/

/-- What a path names in a filesystem snapshot. `unreachable` is a path whose lookup fails
with an error other than not-exist (for instance a parent directory without search
permission); `readable` says whether opening for reading is permitted. -/
inductive Node where
  | missing
  | unreachable
  | directory (readable : Bool)
  | regular (bytes : String) (readable : Bool)
deriving DecidableEq, Repr

/-- Go `os.Stat` on a snapshot. -/
def statOf (fs : String → Node) (name : String) : Except FsError FileInfo :=
  match fs name with
  | .missing => .error .notExist
  | .unreachable => .error .other
  | .directory _ => .ok { IsDir := true }
  | .regular _ _ => .ok { IsDir := false }

/-- Go `os.Open` on a snapshot: opening a readable directory succeeds, as opening a
readable regular file does. -/
def openOf (fs : String → Node) (name : String) : Except FsError File :=
  match fs name with
  | .missing => .error .notExist
  | .unreachable => .error .other
  | .directory true => .ok { IsDir := true, bytes := "" }
  | .directory false => .error .other
  | .regular b true => .ok { IsDir := false, bytes := b }
  | .regular _ false => .error .other

/-- The table of built-in types `builtinTypesLower` of Go package `mime`, the tables the
package starts with when the system has no MIME database. -/
def builtinMime : MimeTables :=
  let t : List (String × String) :=
    [ (".avif", "image/avif"), (".css", "text/css; charset=utf-8"),
      (".gif", "image/gif"), (".htm", "text/html; charset=utf-8"),
      (".html", "text/html; charset=utf-8"), (".jpeg", "image/jpeg"),
      (".jpg", "image/jpeg"), (".js", "text/javascript; charset=utf-8"),
      (".json", "application/json"), (".mjs", "text/javascript; charset=utf-8"),
      (".pdf", "application/pdf"), (".png", "image/png"), (".svg", "image/svg+xml"),
      (".wasm", "application/wasm"), (".webp", "image/webp"),
      (".xml", "text/xml; charset=utf-8") ]
  { mimeTypes := t, mimeTypesLower := t }

/-- The world `w` with its filesystem calls answered from the snapshot `fs`. -/
def onSnapshot (w : World) (fs : String → Node) : World :=
  { w with Stat := statOf fs, Open := openOf fs }

/-- The characters of the request paths used in the concrete worlds below. -/
def plainPathChar (c : Char) : Bool :=
  c.isAlphanum || c = '/' || c = '.' || c = '-' || c = '_'

/-- A stand-in for `url.Parse`, for the concrete worlds below.  It agrees with `url.Parse`
on the two kinds of request line used there: `gemini://host` followed by a path that
starts with `/` and is made of letters, digits, `/`, `.`, `-` and `_` parses, with that
path (dot segments included) as `Path`; and `gemini://host/%zz`, whose percent-escape is
invalid, is rejected.  Every other request line is reported as an error here. -/
def exampleParse (rawURL : String) : Except String URL :=
  let cs := rawURL.data
  if cs.take 14 = "gemini://host/".data ∧ (cs.drop 13).all plainPathChar then
    .ok { Path := ⟨cs.drop 13⟩ }
  else .error "parse error"

/-- A concrete world: the snapshot `fs`, the built-in MIME tables, ASCII lower-casing for
`strings.ToLower` and `exampleParse` for `url.Parse`. -/
def exampleWorld (fs : String → Node) : World :=
  onSnapshot
    { urlParse := exampleParse
      Stat := fun _ => .error .other
      Open := fun _ => .error .other
      toLower := fun s => ⟨s.data.map asciiLower⟩
      sysMime := builtinMime } fs

/-- A site served from `/srv/gemini`: a page, a page that may not be read, a file without
extension, a directory with an index, a directory whose index is a directory, an empty
directory, a directory named like a page, a directory that cannot be searched, and a file
outside the served root. -/
def siteFs : String → Node := fun name =>
  if name = "/srv/gemini" then .directory true
  else if name = "/srv/gemini/post.gem" then .regular "# A post" true
  else if name = "/srv/gemini/notes.gem" then .regular "# Notes" true
  else if name = "/srv/gemini/private.gem" then .regular "# Private" false
  else if name = "/srv/gemini/README" then .regular "read me" true
  else if name = "/srv/gemini/index.gem" then .regular "# Home" true
  else if name = "/srv/gemini/docs" then .directory true
  else if name = "/srv/gemini/docs/index.gem" then .regular "# Docs" true
  else if name = "/srv/gemini/loop" then .directory true
  else if name = "/srv/gemini/loop/index.gem" then .directory true
  else if name = "/srv/gemini/empty" then .directory true
  else if name = "/srv/gemini/draft.gem" then .directory true
  else if name = "/srv/gemini/locked" then .directory false
  else if name = "/srv/gemini/locked/page" then .unreachable
  else if name = "/srv/gemini/locked/page.gem" then .unreachable
  else if name = "/srv/gemini/locked/index.gem" then .unreachable
  else if name = "/etc/passwd" then .regular "root:x:0:0" true
  else .missing

/-- The server of the examples: the defaults of `NewConfig` with the root directory
`/srv/gemini`. -/
def siteServer : GeminiServer :=
  { NewConfig with RootDirectory := "/srv/gemini" }

/-- An extension as the configuration documents it (`.gem`): a dot followed by characters
other than `.` and `/`. -/
def plainExtension (e : String) : Bool :=
  match e.data with
  | '.' :: s => s.all (fun c => c != '/' && c != '.')
  | _ => false

/-- The containment of claim C1: `fp` is the cleaned root itself, or has the cleaned
root followed by `/` as an initial segment. -/
def staysUnder (root fp : String) : Bool :=
  fp == Clean root || ((Clean root).data ++ ['/']).isPrefixOf fp.data

/-- No path element of `path` is `..`, read as `cleanLoop` reads it: `inElem` is true
inside an element, and at the start of an element the `..` test of `path.Clean` is made. -/
def noDotDot : List Char → Bool → Bool
  | [], _ => true
  | c :: rest, true => if c = '/' then noDotDot rest false else noDotDot rest true
  | c :: rest, false =>
    if c = '/' then noDotDot rest false
    else if c = '.' ∧ (rest = [] ∨ rest.head? = some '/') then noDotDot rest false
    else if c = '.' ∧ rest.head? = some '.' ∧
        (rest.tail = [] ∨ rest.tail.head? = some '/') then false
    else noDotDot rest true

/-! ## Helper lemmas -/

theorem serve_calls (w : World) (filename : String) :
    (serve w filename).2 = [.openFile filename] := by
  unfold serve
  cases w.Open filename with
  | error err => cases err <;> rfl
  | ok f => rfl

theorem serve_body_iff (w : World) (filename : String) :
    (serve w filename).1.Body.isSome = true ↔
      (serve w filename).1.Status = .StatusSuccess := by
  unfold serve
  cases w.Open filename with
  | error err => cases err <;> simp [IsNotExist, notFound, failure]
  | ok f => simp

theorem serve_not_badRequest (w : World) (filename : String) :
    (serve w filename).1.Status ≠ .StatusBadRequest := by
  unfold serve
  cases w.Open filename with
  | error err => cases err <;> simp [IsNotExist, notFound, failure]
  | ok f => simp

theorem handleDir_body_iff (w : World) (g : GeminiServer) (fp : String) :
    (handleDir w g fp).1.Body.isSome = true ↔
      (handleDir w g fp).1.Status = .StatusSuccess := by
  simp only [handleDir]
  cases hs : w.Stat (Join [fp, g.DefaultFile ++ g.Extension]) with
  | error err => cases err <;> simp [IsNotExist, notFound, failure]
  | ok info =>
    cases hd : info.IsDir with
    | true => simp [hd, failure]
    | false => simpa [hd, after] using serve_body_iff w _

theorem handleDir_not_badRequest (w : World) (g : GeminiServer) (fp : String) :
    (handleDir w g fp).1.Status ≠ .StatusBadRequest := by
  simp only [handleDir]
  cases hs : w.Stat (Join [fp, g.DefaultFile ++ g.Extension]) with
  | error err => cases err <;> simp [IsNotExist, notFound, failure]
  | ok info =>
    cases hd : info.IsDir with
    | true => simp [hd, failure]
    | false => simpa [hd, after] using serve_not_badRequest w _

theorem extScan_plain (t rest acc : List Char)
    (ht : ∀ c ∈ t, c ≠ '/' ∧ c ≠ '.') :
    extScan (t ++ rest) acc = extScan rest (t.reverse ++ acc) := by
  induction t generalizing acc with
  | nil => rfl
  | cons c t ih =>
    have hc := ht c (List.mem_cons_self c t)
    have ht2 : ∀ d ∈ t, d ≠ '/' ∧ d ≠ '.' := fun d hd => ht d (List.mem_cons_of_mem c hd)
    simp [extScan, hc.1, hc.2, ih _ ht2]

theorem Ext_append_plain (fp e : String) (he : plainExtension e = true) :
    Ext (fp ++ e) = e := by
  obtain ⟨ed⟩ := e
  cases ed with
  | nil => simp [plainExtension] at he
  | cons c s =>
    by_cases hc : c = '.'
    · subst hc
      have hs : ∀ d ∈ s.reverse, d ≠ '/' ∧ d ≠ '.' := by
        intro d hd
        have hall : ∀ x ∈ s, ¬x = '/' ∧ ¬x = '.' := by simpa [plainExtension] using he
        exact hall d (List.mem_reverse.mp hd)
      have := extScan_plain s.reverse ('.' :: fp.data.reverse) [] hs
      simp only [Ext, String.data_append, List.reverse_append, List.reverse_cons,
        List.append_assoc, List.singleton_append]
      rw [this]
      simp [extScan]
    · simp [plainExtension] at he
      split at he <;> simp_all

theorem handle_of_stat_file (w : World) (g : GeminiServer) (r : Request) (u : URL)
    (info : FileInfo) (hu : w.urlParse r.URL = .ok u)
    (hs : w.Stat (Join [g.RootDirectory, u.Path]) = .ok info) (hd : info.IsDir = false) :
    _handle w g r =
      after [.stat (Join [g.RootDirectory, u.Path])]
        (serve w (Join [g.RootDirectory, u.Path])) := by
  simp [_handle, hu, hs, hd]

theorem handle_of_stat_dir (w : World) (g : GeminiServer) (r : Request) (u : URL)
    (info : FileInfo) (hu : w.urlParse r.URL = .ok u)
    (hs : w.Stat (Join [g.RootDirectory, u.Path]) = .ok info) (hd : info.IsDir = true) :
    _handle w g r =
      after [.stat (Join [g.RootDirectory, u.Path])]
        (handleDir w g (Join [g.RootDirectory, u.Path])) := by
  simp [_handle, hu, hs, hd]

theorem init_mimeTypes (toLower : String → String) (m : MimeTables) :
    (init toLower m).mimeTypes =
      (".gmi", geminiType) :: (".gemini", geminiType) :: (".gem", geminiType) ::
        m.mimeTypes := by
  rfl

theorem init_mimeTypesLower (toLower : String → String) (m : MimeTables) :
    (init toLower m).mimeTypesLower =
      (".gmi", geminiType) :: (".gemini", geminiType) :: (".gem", geminiType) ::
        m.mimeTypesLower := by
  rfl

/-! ## Containment of the joined path for request paths without `..` -/

theorem cleanLoop_start (rooted : Bool) (c : Char) (rest out : List Char) (dd : Nat) :
    cleanLoop rooted (c :: rest) false out dd =
      if c = '/' then cleanLoop rooted rest false out dd
      else if c = '.' ∧ (rest = [] ∨ rest.head? = some '/') then
        cleanLoop rooted rest false out dd
      else if c = '.' ∧ rest.head? = some '.' ∧
          (rest.tail = [] ∨ rest.tail.head? = some '/') then
        cleanLoop rooted rest.tail false (cleanDotDot rooted out dd).1
          (cleanDotDot rooted out dd).2
      else
        cleanLoop rooted rest true
          ((if needSlash rooted out then out ++ ['/'] else out) ++ [c]) dd := by
  rw [cleanLoop.eq_def]
  simp only []
  split
  · rfl
  · split
    · rfl
    · split
      · rename_i h
        cases rest with
        | nil => simp at h
        | cons d r2 => rfl
      · rfl

theorem cleanLoop_noDotDot (rooted : Bool) (O : List Char)
    (hslash : ∀ out : List Char, O.length ≤ out.length → needSlash rooted out = true) :
    ∀ (b : List Char) (inElem : Bool) (out : List Char) (dd : Nat),
      noDotDot b inElem = true →
      (out = O ∧ inElem = false ∨ (O ++ ['/']) <+: out) →
      (cleanLoop rooted b inElem out dd = O ∨
        (O ++ ['/']) <+: cleanLoop rooted b inElem out dd) := by
  intro b
  induction b with
  | nil =>
    intro inElem out dd _ h
    rcases h with ⟨h, _⟩ | h
    · left; simp [cleanLoop, h]
    · right; simpa [cleanLoop] using h
  | cons c rest ih =>
    intro inElem out dd hn h
    cases inElem with
    | true =>
      have hpre : (O ++ ['/']) <+: out := by
        rcases h with ⟨_, h⟩ | h
        · cases h
        · exact h
      by_cases hc : c = '/'
      · simp only [cleanLoop, hc, if_true]
        simp only [noDotDot, hc, if_true] at hn
        exact ih false out dd hn (Or.inr hpre)
      · simp only [cleanLoop, hc, if_false]
        simp only [noDotDot, hc, if_false] at hn
        exact ih true _ dd hn (Or.inr (hpre.trans (List.prefix_append _ _)))
    | false =>
      have hlen : O.length ≤ out.length := by
        rcases h with ⟨h, _⟩ | h
        · simp [h]
        · have := h.length_le
          simp at this
          omega
      rw [cleanLoop_start]
      rw [noDotDot] at hn
      by_cases hc : c = '/'
      · rw [if_pos hc] at hn ⊢
        exact ih false out dd hn h
      · rw [if_neg hc] at hn ⊢
        by_cases hdot : c = '.' ∧ (rest = [] ∨ rest.head? = some '/')
        · rw [if_pos hdot] at hn ⊢
          exact ih false out dd hn h
        · rw [if_neg hdot] at hn ⊢
          by_cases hdd : c = '.' ∧ rest.head? = some '.' ∧
              (rest.tail = [] ∨ rest.tail.head? = some '/')
          · rw [if_pos hdd] at hn
            cases hn
          · rw [if_neg hdd] at hn ⊢
            rw [if_pos (hslash out hlen)]
            refine ih true _ dd hn (Or.inr ?_)
            rcases h with ⟨h, _⟩ | h
            · subst h
              simp
            · exact h.trans (by simp)

theorem cleanLoop_split (rooted : Bool) (b : List Char) :
    ∀ (n : Nat) (a : List Char), a.length ≤ n → ∀ (inElem : Bool) (out : List Char)
      (dd : Nat), ∃ dd2, cleanLoop rooted (a ++ '/' :: b) inElem out dd =
        cleanLoop rooted b false (cleanLoop rooted a inElem out dd) dd2 := by
  have hnil : ∀ (inElem : Bool) (out : List Char) (dd : Nat),
      cleanLoop rooted ('/' :: b) inElem out dd = cleanLoop rooted b false out dd := by
    intro inElem out dd
    cases inElem with
    | true => simp [cleanLoop]
    | false => rw [cleanLoop_start, if_pos rfl]
  intro n
  induction n with
  | zero =>
    intro a ha inElem out dd
    have : a = [] := List.length_eq_zero.mp (Nat.le_zero.mp ha)
    subst this
    exact ⟨dd, by simp [hnil, cleanLoop]⟩
  | succ n ih =>
    intro a ha inElem out dd
    cases a with
    | nil => exact ⟨dd, by simp [hnil, cleanLoop]⟩
    | cons c rest =>
      have hr : rest.length ≤ n := by simpa using ha
      cases inElem with
      | true =>
        by_cases hc : c = '/'
        · simpa [cleanLoop, hc] using ih rest hr false out dd
        · simpa [cleanLoop, hc] using ih rest hr true (out ++ [c]) dd
      | false =>
        have h1 : ((rest ++ '/' :: b) = [] ∨ (rest ++ '/' :: b).head? = some '/') ↔
            (rest = [] ∨ rest.head? = some '/') := by
          cases rest <;> simp
        have h2 : ((rest ++ '/' :: b).head? = some '.' ∧
            ((rest ++ '/' :: b).tail = [] ∨ (rest ++ '/' :: b).tail.head? = some '/')) ↔
            (rest.head? = some '.' ∧ (rest.tail = [] ∨ rest.tail.head? = some '/')) := by
          cases rest with
          | nil => simp
          | cons d r2 => cases r2 <;> simp
        rw [List.cons_append, cleanLoop_start, cleanLoop_start]
        by_cases hc : c = '/'
        · rw [if_pos hc, if_pos hc]
          exact ih rest hr false out dd
        · rw [if_neg hc, if_neg hc]
          by_cases hdot : c = '.' ∧ (rest = [] ∨ rest.head? = some '/')
          · rw [if_pos hdot, if_pos ⟨hdot.1, h1.mpr hdot.2⟩]
            exact ih rest hr false out dd
          · rw [if_neg hdot, if_neg (fun h => hdot ⟨h.1, h1.mp h.2⟩)]
            by_cases hdd : c = '.' ∧ rest.head? = some '.' ∧
                (rest.tail = [] ∨ rest.tail.head? = some '/')
            · rw [if_pos hdd, if_pos ⟨hdd.1, h2.mpr hdd.2⟩]
              cases rest with
              | nil => simp at hdd
              | cons d rest2 =>
                have hr2 : rest2.length ≤ n := by
                  simp at hr
                  omega
                exact ih rest2 hr2 false _ _
            · rw [if_neg hdd, if_neg (fun h => hdd ⟨h.1, h2.mp h.2⟩)]
              exact ih rest hr true _ dd

theorem le_backtrack (buf : List Char) (dd : Nat) :
    ∀ w, dd ≤ w → dd ≤ backtrack buf dd w := by
  intro w
  induction w with
  | zero => intro h; simpa [backtrack] using h
  | succ w ih =>
    intro h
    rw [backtrack]
    split
    · rename_i hlt
      exact ih (by omega)
    · exact h

theorem cleanDotDot_rooted (out : List Char) (dd : Nat) (hdd : 1 ≤ dd)
    (hout : out.head? = some '/') :
    (cleanDotDot true out dd).2 = dd ∧ (cleanDotDot true out dd).1.head? = some '/' := by
  unfold cleanDotDot
  by_cases h : dd < out.length
  · have hb := le_backtrack out dd (out.length - 1) (by omega)
    have hne : backtrack out dd (out.length - 1) ≠ 0 := by omega
    simp [h, List.head?_take, hne, hout]
  · simp [h, hout]

theorem cleanLoop_rooted_head :
    ∀ (n : Nat) (a : List Char), a.length ≤ n → ∀ (inElem : Bool) (out : List Char)
      (dd : Nat), 1 ≤ dd → out.head? = some '/' →
      (cleanLoop true a inElem out dd).head? = some '/' := by
  have happ : ∀ (out x : List Char), out.head? = some '/' →
      (out ++ x).head? = some '/' := by
    intro out x h
    cases out with
    | nil => simp at h
    | cons d t => simpa using h
  intro n
  induction n with
  | zero =>
    intro a ha inElem out dd _ hout
    have : a = [] := List.length_eq_zero.mp (Nat.le_zero.mp ha)
    subst this
    simpa [cleanLoop] using hout
  | succ n ih =>
    intro a ha inElem out dd hdd hout
    cases a with
    | nil => simpa [cleanLoop] using hout
    | cons c rest =>
      have hr : rest.length ≤ n := by simpa using ha
      cases inElem with
      | true =>
        by_cases hc : c = '/'
        · simpa [cleanLoop, hc] using ih rest hr false out dd hdd hout
        · simpa [cleanLoop, hc] using ih rest hr true (out ++ [c]) dd hdd (happ _ _ hout)
      | false =>
        rw [cleanLoop_start]
        split
        · exact ih rest hr false out dd hdd hout
        · split
          · exact ih rest hr false out dd hdd hout
          · split
            · have hst := cleanDotDot_rooted out dd hdd hout
              have hr2 : rest.tail.length ≤ n := by
                simp
                omega
              exact ih rest.tail hr2 false _ _ (by rw [hst.1]; exact hdd) hst.2
            · refine ih rest hr true _ dd hdd (happ _ _ ?_)
              split
              · exact happ _ _ hout
              · exact hout

/-- Containment for request paths without a `..` element: when the root is not empty and
its cleaned form is neither `.` nor `/`, the joined path is the cleaned root or has the
cleaned root followed by `/` as an initial segment. -/
theorem join_staysUnder_of_noDotDot (root p : String) (hroot : root ≠ "")
    (h1 : Clean root ≠ ".") (h2 : Clean root ≠ "/")
    (hp : noDotDot p.data false = true) :
    staysUnder root (Join [root, p]) = true := by
  obtain ⟨rd⟩ := root
  obtain ⟨pd⟩ := p
  cases rd with
  | nil => exact absurd rfl hroot
  | cons c rest =>
    have hjoin : Join [⟨c :: rest⟩, ⟨pd⟩] = ⟨cleanChars ((c :: rest) ++ '/' :: pd)⟩ := by
      simp [Join, joinBuf, Clean, String.length, hroot]
    rw [hjoin]
    -- the buffer after the root has been read
    have key : ∀ (rooted : Bool) (a : List Char) (out0 : List Char) (dd0 : Nat),
        (Clean ⟨c :: rest⟩).data =
          (if (cleanLoop rooted a false out0 dd0).length = 0 then ['.']
            else cleanLoop rooted a false out0 dd0) →
        (∀ out : List Char, (cleanLoop rooted a false out0 dd0).length ≤ out.length →
          needSlash rooted out = true) →
        staysUnder ⟨c :: rest⟩
          ⟨if (cleanLoop rooted (a ++ '/' :: pd) false out0 dd0).length = 0 then ['.']
            else cleanLoop rooted (a ++ '/' :: pd) false out0 dd0⟩ = true := by
      intro rooted a out0 dd0 hclean hslash
      obtain ⟨dd2, hsplit⟩ := cleanLoop_split rooted pd a.length a (Nat.le_refl _) false
        out0 dd0
      have hO : (cleanLoop rooted a false out0 dd0).length ≠ 0 := by
        intro h0
        rw [if_pos h0] at hclean
        exact h1 (String.ext hclean)
      rw [if_neg hO] at hclean
      have hinv := cleanLoop_noDotDot rooted _ hslash pd false _ dd2 hp (Or.inl ⟨rfl, rfl⟩)
      rw [← hsplit] at hinv
      have hR : (cleanLoop rooted (a ++ '/' :: pd) false out0 dd0).length ≠ 0 := by
        rcases hinv with h | h
        · rw [h]; exact hO
        · have := h.length_le
          simp at this
          omega
      rw [if_neg hR]
      unfold staysUnder
      rw [Bool.or_eq_true]
      rcases hinv with h | h
      · left
        rw [beq_iff_eq]
        exact String.ext (by rw [hclean, h])
      · right
        rw [List.isPrefixOf_iff_prefix, hclean]
        exact h
    by_cases hc : c = '/'
    · subst hc
      have hcl : (Clean ⟨'/' :: rest⟩).data =
          (if (cleanLoop true rest false ['/'] 1).length = 0 then ['.']
            else cleanLoop true rest false ['/'] 1) := by
        simp [Clean, cleanChars]
      have hhead := cleanLoop_rooted_head rest.length rest (Nat.le_refl _) false ['/'] 1
        (Nat.le_refl _) rfl
      have hslash : ∀ out : List Char,
          (cleanLoop true rest false ['/'] 1).length ≤ out.length →
          needSlash true out = true := by
        intro out hle
        have h2len : 2 ≤ (cleanLoop true rest false ['/'] 1).length := by
          cases hO : cleanLoop true rest false ['/'] 1 with
          | nil => rw [hO] at hhead; simp at hhead
          | cons d t =>
            cases t with
            | nil =>
              rw [hO] at hhead hcl
              simp at hhead
              subst hhead
              exact absurd (String.ext (by simpa using hcl)) h2
            | cons e t2 => simp
        simp [needSlash]
        omega
      have := key true rest ['/'] 1 hcl hslash
      simpa [cleanChars] using this
    · have hcl : (Clean ⟨c :: rest⟩).data =
          (if (cleanLoop false (c :: rest) false [] 0).length = 0 then ['.']
            else cleanLoop false (c :: rest) false [] 0) := by
        simp [Clean, cleanChars, hc]
      have hslash : ∀ out : List Char,
          (cleanLoop false (c :: rest) false [] 0).length ≤ out.length →
          needSlash false out = true := by
        intro out hle
        have hO : (cleanLoop false (c :: rest) false [] 0).length ≠ 0 := by
          intro h0
          rw [if_pos h0] at hcl
          exact h1 (String.ext hcl)
        have hne : out.length ≠ 0 := by omega
        simp only [needSlash, Bool.false_and, Bool.not_false, Bool.true_and, Bool.false_or,
          bne_iff_ne, ne_eq]
        exact hne
      have := key false (c :: rest) [] 0 hcl hslash
      simpa [cleanChars, hc] using this

/-- The containment theorem at the root `/srv/gemini` and the request path
`/docs/./a.gem`. -/
theorem join_staysUnder_example :
    staysUnder "/srv/gemini" (Join ["/srv/gemini", "/docs/./a.gem"]) = true ∧
      Join ["/srv/gemini", "/docs/./a.gem"] = "/srv/gemini/docs/a.gem" :=
  ⟨join_staysUnder_of_noDotDot "/srv/gemini" "/docs/./a.gem" (by decide) (by decide)
    (by decide) (by decide), by decide⟩

/-! ## The claims -/

/-- C5: when the request URL parses, the first stat of the joined path reports not-exist
and the joined path has a non-empty extension, `_handle` returns NotFound with meta
"Not Found!" and no body, and the stat of the joined path is the only filesystem call:
no file is opened and nothing else is probed. -/
theorem C5_missing_with_extension_is_not_found (w : World) (g : GeminiServer) (r : Request)
    (u : URL) (hu : w.urlParse r.URL = .ok u)
    (hs : w.Stat (Join [g.RootDirectory, u.Path]) = .error .notExist)
    (he : Ext (Join [g.RootDirectory, u.Path]) ≠ "") :
    _handle w g r =
      ({ Status := .StatusNotFound, Meta := "Not Found!", Body := none },
        [.stat (Join [g.RootDirectory, u.Path])]) := by
  simp [_handle, hu, hs, he, IsNotExist, notFound]

/-- C5 at `/missing.gem` on the example site. -/
theorem C5_missing_with_extension_witness :
    (exampleWorld siteFs).urlParse (Request.mk "gemini://host/missing.gem").URL
        = .ok ⟨"/missing.gem"⟩ ∧
      (exampleWorld siteFs).Stat (Join [siteServer.RootDirectory, "/missing.gem"])
        = .error .notExist ∧
      Ext (Join [siteServer.RootDirectory, "/missing.gem"]) ≠ "" ∧
      _handle (exampleWorld siteFs) siteServer ⟨"gemini://host/missing.gem"⟩ =
        ({ Status := .StatusNotFound, Meta := "Not Found!", Body := none },
          [.stat "/srv/gemini/missing.gem"]) :=
  ⟨rfl, rfl, by decide,
    C5_missing_with_extension_is_not_found (exampleWorld siteFs) siteServer
      ⟨"gemini://host/missing.gem"⟩ ⟨"/missing.gem"⟩ rfl rfl (by decide)⟩

/-- C6: for every world, server and request, if `url.Parse` rejects the request URL then
`_handle` returns BadRequest with meta "Bad URL", no body, and makes no filesystem call;
and the status is BadRequest only when `url.Parse` rejects the URL.  (`_handle` is a total
function, so it returns a response on every input.) -/
theorem C6_bad_url_iff_bad_request (w : World) (g : GeminiServer) (r : Request) :
    (∀ msg, w.urlParse r.URL = .error msg →
      _handle w g r =
        ({ Status := .StatusBadRequest, Meta := "Bad URL", Body := none }, [])) ∧
    ((_handle w g r).1.Status = .StatusBadRequest ↔ ∃ msg, w.urlParse r.URL = .error msg) := by
  constructor
  · intro msg h
    simp [_handle, h]
  · simp only [_handle]
    cases hp : w.urlParse r.URL with
    | error msg => simp
    | ok u =>
      simp only [reduceCtorEq, exists_false, iff_false]
      cases hs : w.Stat (Join [g.RootDirectory, u.Path]) with
      | error err =>
        cases err with
        | notExist =>
          by_cases he : Ext (Join [g.RootDirectory, u.Path]) = ""
          · simpa [IsNotExist, he, after] using serve_not_badRequest w _
          · simp [IsNotExist, he, notFound]
        | other => simp [IsNotExist]
      | ok info =>
        cases hd : info.IsDir with
        | true => simpa [hd, after] using handleDir_not_badRequest w g _
        | false => simpa [hd, after] using serve_not_badRequest w _

/-- C7: for every world, server and request, the response of `_handle` has a body exactly
when its status is Success. -/
theorem C7_body_iff_success (w : World) (g : GeminiServer) (r : Request) :
    (_handle w g r).1.Body.isSome = true ↔ (_handle w g r).1.Status = .StatusSuccess := by
  simp only [_handle]
  cases hp : w.urlParse r.URL with
  | error msg => simp
  | ok u =>
    simp only []
    cases hs : w.Stat (Join [g.RootDirectory, u.Path]) with
    | error err =>
      cases err with
      | notExist =>
        by_cases he : Ext (Join [g.RootDirectory, u.Path]) = ""
        · simpa [IsNotExist, he, after] using serve_body_iff w _
        · simp [IsNotExist, he, notFound]
      | other => simp [IsNotExist]
    | ok info =>
      cases hd : info.IsDir with
      | true => simpa [hd, after] using handleDir_body_iff w g _
      | false => simpa [hd, after] using serve_body_iff w _

/-- C8: when the request URL parses and the first stat of the joined path fails with an
error other than not-exist, `_handle` returns TemporaryFailure with meta
"File Lookup Issue" and no body, whatever the extension of the path, and the stat is the
only filesystem call: the path with `Extension` appended is not tried and no file is
opened. -/
theorem C8_lookup_error_is_temporary_failure (w : World) (g : GeminiServer) (r : Request)
    (u : URL) (hu : w.urlParse r.URL = .ok u)
    (hs : w.Stat (Join [g.RootDirectory, u.Path]) = .error .other) :
    _handle w g r =
      ({ Status := .StatusTemporaryFailure, Meta := "File Lookup Issue", Body := none },
        [.stat (Join [g.RootDirectory, u.Path])]) := by
  simp [_handle, hu, hs, IsNotExist]

/-- C8 at the extensionless `/locked/page` on the example site, where `page.gem` cannot be
looked up either. -/
theorem C8_lookup_error_witness :
    (exampleWorld siteFs).urlParse (Request.mk "gemini://host/locked/page").URL
        = .ok ⟨"/locked/page"⟩ ∧
      (exampleWorld siteFs).Stat (Join [siteServer.RootDirectory, "/locked/page"])
        = .error .other ∧
      Ext (Join [siteServer.RootDirectory, "/locked/page"]) = "" ∧
      _handle (exampleWorld siteFs) siteServer ⟨"gemini://host/locked/page"⟩ =
        ({ Status := .StatusTemporaryFailure, Meta := "File Lookup Issue", Body := none },
          [.stat "/srv/gemini/locked/page"]) :=
  ⟨rfl, rfl, by decide,
    C8_lookup_error_is_temporary_failure (exampleWorld siteFs) siteServer
      ⟨"gemini://host/locked/page"⟩ ⟨"/locked/page"⟩ rfl rfl⟩

/-- C2: when the request URL parses, the first stat of the joined path `fp` reports
not-exist and `fp` has an empty extension, `_handle` answers with the result of serving
`fp + Extension`: it stats `fp`, opens `fp + Extension` and makes no other call; when
that file opens the response is Success with that file as body and the content type of
the extension of `fp + Extension` as meta; the status is NotFound exactly when opening
`fp + Extension` reports not-exist; and for an `Extension` made of a dot and characters
other than `.` and `/` the extension of `fp + Extension` is `Extension` itself. -/
theorem C2_extensionless_fallback (w : World) (g : GeminiServer) (r : Request) (u : URL)
    (hu : w.urlParse r.URL = .ok u)
    (hs : w.Stat (Join [g.RootDirectory, u.Path]) = .error .notExist)
    (he : Ext (Join [g.RootDirectory, u.Path]) = "") :
    _handle w g r =
        ((serve w (Join [g.RootDirectory, u.Path] ++ g.Extension)).1,
          [.stat (Join [g.RootDirectory, u.Path]),
            .openFile (Join [g.RootDirectory, u.Path] ++ g.Extension)]) ∧
    (∀ f, w.Open (Join [g.RootDirectory, u.Path] ++ g.Extension) = .ok f →
      (_handle w g r).1 =
        { Status := .StatusSuccess
          Meta := TypeByExtension w.toLower (init w.toLower w.sysMime)
            (Ext (Join [g.RootDirectory, u.Path] ++ g.Extension))
          Body := some f }) ∧
    ((_handle w g r).1.Status = .StatusNotFound ↔
      w.Open (Join [g.RootDirectory, u.Path] ++ g.Extension) = .error .notExist) ∧
    (plainExtension g.Extension = true →
      Ext (Join [g.RootDirectory, u.Path] ++ g.Extension) = g.Extension) := by
  have h : _handle w g r =
      after [.stat (Join [g.RootDirectory, u.Path])]
        (serve w (Join [g.RootDirectory, u.Path] ++ g.Extension)) := by
    simp [_handle, hu, hs, he, IsNotExist]
  refine ⟨?_, ?_, ?_, ?_⟩
  · rw [h]
    simp [after, serve_calls]
  · intro f hf
    rw [h]
    simp [after, serve, hf]
  · rw [h]
    simp only [after, serve]
    cases ho : w.Open (Join [g.RootDirectory, u.Path] ++ g.Extension) with
    | error err => cases err <;> simp [IsNotExist, notFound, failure]
    | ok f => simp
  · intro hp
    exact Ext_append_plain _ _ hp

/-- C2 on the example site: `/post` (no `post`, but `post.gem`) gives Success with the
gemini content type, and `/missing` (neither `missing` nor `missing.gem`) gives
NotFound after `missing.gem` has been tried. -/
theorem C2_extensionless_fallback_witness :
    ((exampleWorld siteFs).urlParse (Request.mk "gemini://host/post").URL = .ok ⟨"/post"⟩ ∧
      (exampleWorld siteFs).Stat (Join [siteServer.RootDirectory, "/post"])
        = .error .notExist ∧
      Ext (Join [siteServer.RootDirectory, "/post"]) = "" ∧
      _handle (exampleWorld siteFs) siteServer ⟨"gemini://host/post"⟩ =
        ({ Status := .StatusSuccess, Meta := "text/gemini; charset=utf-8",
           Body := some ⟨false, "# A post"⟩ },
          [.stat "/srv/gemini/post", .openFile "/srv/gemini/post.gem"])) ∧
    ((exampleWorld siteFs).urlParse (Request.mk "gemini://host/missing").URL
        = .ok ⟨"/missing"⟩ ∧
      (exampleWorld siteFs).Stat (Join [siteServer.RootDirectory, "/missing"])
        = .error .notExist ∧
      Ext (Join [siteServer.RootDirectory, "/missing"]) = "" ∧
      _handle (exampleWorld siteFs) siteServer ⟨"gemini://host/missing"⟩ =
        ({ Status := .StatusNotFound, Meta := "Not Found!", Body := none },
          [.stat "/srv/gemini/missing", .openFile "/srv/gemini/missing.gem"])) :=
  ⟨⟨rfl, rfl, by decide,
      (C2_extensionless_fallback (exampleWorld siteFs) siteServer ⟨"gemini://host/post"⟩
        ⟨"/post"⟩ rfl rfl (by decide)).1.trans (by decide)⟩,
    ⟨rfl, rfl, by decide,
      (C2_extensionless_fallback (exampleWorld siteFs) siteServer ⟨"gemini://host/missing"⟩
        ⟨"/missing"⟩ rfl rfl (by decide)).1.trans (by decide)⟩⟩

/-- C4: when the request URL parses and the joined path `fp` is an existing directory,
the response is decided by the stat of `indexPath = path.Join(fp, DefaultFile + Extension)`
alone: not-exist gives NotFound "Not Found!", another stat error gives TemporaryFailure
"File Read Issue", a directory gives TemporaryFailure "Folder Loop", and otherwise the
response is the result of serving `indexPath`.  The calls made are the stat of `fp`, the
stat of `indexPath` and, in the last case only, the open of `indexPath`: `fp + Extension`
is never tried. -/
theorem C4_directory_index (w : World) (g : GeminiServer) (r : Request) (u : URL)
    (info : FileInfo) (hu : w.urlParse r.URL = .ok u)
    (hs : w.Stat (Join [g.RootDirectory, u.Path]) = .ok info) (hd : info.IsDir = true) :
    (w.Stat (Join [Join [g.RootDirectory, u.Path], g.DefaultFile ++ g.Extension])
        = .error .notExist →
      _handle w g r =
        ({ Status := .StatusNotFound, Meta := "Not Found!", Body := none },
          [.stat (Join [g.RootDirectory, u.Path]),
            .stat (Join [Join [g.RootDirectory, u.Path], g.DefaultFile ++ g.Extension])])) ∧
    (w.Stat (Join [Join [g.RootDirectory, u.Path], g.DefaultFile ++ g.Extension])
        = .error .other →
      _handle w g r =
        ({ Status := .StatusTemporaryFailure, Meta := "File Read Issue", Body := none },
          [.stat (Join [g.RootDirectory, u.Path]),
            .stat (Join [Join [g.RootDirectory, u.Path], g.DefaultFile ++ g.Extension])])) ∧
    (w.Stat (Join [Join [g.RootDirectory, u.Path], g.DefaultFile ++ g.Extension])
        = .ok { IsDir := true } →
      _handle w g r =
        ({ Status := .StatusTemporaryFailure, Meta := "Folder Loop", Body := none },
          [.stat (Join [g.RootDirectory, u.Path]),
            .stat (Join [Join [g.RootDirectory, u.Path], g.DefaultFile ++ g.Extension])])) ∧
    (w.Stat (Join [Join [g.RootDirectory, u.Path], g.DefaultFile ++ g.Extension])
        = .ok { IsDir := false } →
      _handle w g r =
        ((serve w (Join [Join [g.RootDirectory, u.Path], g.DefaultFile ++ g.Extension])).1,
          [.stat (Join [g.RootDirectory, u.Path]),
            .stat (Join [Join [g.RootDirectory, u.Path], g.DefaultFile ++ g.Extension]),
            .openFile
              (Join [Join [g.RootDirectory, u.Path], g.DefaultFile ++ g.Extension])])) := by
  rw [handle_of_stat_dir w g r u info hu hs hd]
  refine ⟨?_, ?_, ?_, ?_⟩ <;> intro hi
  · simp [handleDir, hi, after, IsNotExist, notFound]
  · simp [handleDir, hi, after, IsNotExist, failure]
  · simp [handleDir, hi, after, failure]
  · simp [handleDir, hi, after, serve_calls]

/-- C4 on the example site: `/docs/` serves `docs/index.gem`, `/loop/` (whose `index.gem`
is a directory) gives "Folder Loop", and `/empty/` (no `index.gem`) gives NotFound. -/
theorem C4_directory_index_witness :
    ((exampleWorld siteFs).urlParse (Request.mk "gemini://host/docs/").URL = .ok ⟨"/docs/"⟩ ∧
      (exampleWorld siteFs).Stat (Join [siteServer.RootDirectory, "/docs/"])
        = .ok { IsDir := true } ∧
      _handle (exampleWorld siteFs) siteServer ⟨"gemini://host/docs/"⟩ =
        ({ Status := .StatusSuccess, Meta := "text/gemini; charset=utf-8",
           Body := some ⟨false, "# Docs"⟩ },
          [.stat "/srv/gemini/docs", .stat "/srv/gemini/docs/index.gem",
            .openFile "/srv/gemini/docs/index.gem"])) ∧
    ((exampleWorld siteFs).Stat (Join [siteServer.RootDirectory, "/loop/"])
        = .ok { IsDir := true } ∧
      _handle (exampleWorld siteFs) siteServer ⟨"gemini://host/loop/"⟩ =
        ({ Status := .StatusTemporaryFailure, Meta := "Folder Loop", Body := none },
          [.stat "/srv/gemini/loop", .stat "/srv/gemini/loop/index.gem"])) ∧
    ((exampleWorld siteFs).Stat (Join [siteServer.RootDirectory, "/empty/"])
        = .ok { IsDir := true } ∧
      _handle (exampleWorld siteFs) siteServer ⟨"gemini://host/empty/"⟩ =
        ({ Status := .StatusNotFound, Meta := "Not Found!", Body := none },
          [.stat "/srv/gemini/empty", .stat "/srv/gemini/empty/index.gem"])) :=
  ⟨⟨rfl, rfl,
      ((C4_directory_index (exampleWorld siteFs) siteServer ⟨"gemini://host/docs/"⟩
        ⟨"/docs/"⟩ ⟨true⟩ rfl rfl rfl).2.2.2 rfl).trans (by decide)⟩,
    ⟨rfl,
      ((C4_directory_index (exampleWorld siteFs) siteServer ⟨"gemini://host/loop/"⟩
        ⟨"/loop/"⟩ ⟨true⟩ rfl rfl rfl).2.2.1 rfl).trans (by decide)⟩,
    ⟨rfl,
      ((C4_directory_index (exampleWorld siteFs) siteServer ⟨"gemini://host/empty/"⟩
        ⟨"/empty/"⟩ ⟨true⟩ rfl rfl rfl).1 rfl).trans (by decide)⟩⟩

/-- C3, as stated, fails: on the example site `private.gem` is an existing regular file
that may not be read, and the request for it gets TemporaryFailure "Open File Issue", not
Success; and `notes.gem` is an existing regular file for which the request path
`/notes.gem/`, whose own extension is empty and has the empty content type, is answered
with the gemini content type of the joined path `/srv/gemini/notes.gem`. -/
theorem C3_counterexample_unreadable_file :
    (siteFs (Join [siteServer.RootDirectory, "/private.gem"]) = .regular "# Private" false ∧
      _handle (exampleWorld siteFs) siteServer ⟨"gemini://host/private.gem"⟩ =
        ({ Status := .StatusTemporaryFailure, Meta := "Open File Issue", Body := none },
          [.stat "/srv/gemini/private.gem", .openFile "/srv/gemini/private.gem"])) ∧
    (siteFs (Join [siteServer.RootDirectory, "/notes.gem/"]) = .regular "# Notes" true ∧
      (_handle (exampleWorld siteFs) siteServer ⟨"gemini://host/notes.gem/"⟩).1 =
        { Status := .StatusSuccess, Meta := "text/gemini; charset=utf-8",
          Body := some ⟨false, "# Notes"⟩ } ∧
      TypeByExtension (exampleWorld siteFs).toLower
        (init (exampleWorld siteFs).toLower (exampleWorld siteFs).sysMime)
        (Ext "/notes.gem/") = "") := by
  decide

/-- C3, amended: when the request URL parses and, in the filesystem snapshot, the joined
path `fp = path.Join(RootDirectory, u.Path)` is an existing regular file that may be read,
`_handle` returns Success with a body whose content is that file's bytes and with meta the
content type looked up for the extension of `fp`; it stats `fp`, opens `fp` and makes no
other call. -/
theorem C3_readable_file_is_served (w : World) (fs : String → Node) (g : GeminiServer)
    (r : Request) (u : URL) (b : String) (hu : w.urlParse r.URL = .ok u)
    (hf : fs (Join [g.RootDirectory, u.Path]) = .regular b true) :
    _handle (onSnapshot w fs) g r =
      ({ Status := .StatusSuccess
         Meta := TypeByExtension w.toLower (init w.toLower w.sysMime)
           (Ext (Join [g.RootDirectory, u.Path]))
         Body := some { IsDir := false, bytes := b } },
        [.stat (Join [g.RootDirectory, u.Path]),
          .openFile (Join [g.RootDirectory, u.Path])]) := by
  have hs : (onSnapshot w fs).Stat (Join [g.RootDirectory, u.Path]) = .ok ⟨false⟩ := by
    simp [onSnapshot, statOf, hf]
  have ho : (onSnapshot w fs).Open (Join [g.RootDirectory, u.Path]) = .ok ⟨false, b⟩ := by
    simp [onSnapshot, openOf, hf]
  rw [handle_of_stat_file (onSnapshot w fs) g r u ⟨false⟩ hu hs rfl]
  simp only [after, serve, ho]
  rfl

/-- C3 amended, at `/index.gem` on the example site. -/
theorem C3_readable_file_is_served_witness :
    exampleParse (Request.mk "gemini://host/index.gem").URL = .ok ⟨"/index.gem"⟩ ∧
      siteFs (Join [siteServer.RootDirectory, "/index.gem"]) = .regular "# Home" true ∧
      _handle (exampleWorld siteFs) siteServer ⟨"gemini://host/index.gem"⟩ =
        ({ Status := .StatusSuccess, Meta := "text/gemini; charset=utf-8",
           Body := some { IsDir := false, bytes := "# Home" } },
          [.stat "/srv/gemini/index.gem", .openFile "/srv/gemini/index.gem"]) :=
  ⟨rfl, by decide,
    (C3_readable_file_is_served
      { urlParse := exampleParse
        Stat := fun _ => .error .other
        Open := fun _ => .error .other
        toLower := fun s => ⟨s.data.map asciiLower⟩
        sysMime := builtinMime } siteFs siteServer ⟨"gemini://host/index.gem"⟩
      ⟨"/index.gem"⟩ "# Home" rfl (by decide)).trans (by decide)⟩

/-- C9, as stated, fails: on the example site the request for `README`, a file without
extension, gets Success with the empty string as meta, and so does the lookup of the
unregistered extension `.zzz`. -/
theorem C9_counterexample_empty_meta :
    _handle (exampleWorld siteFs) siteServer ⟨"gemini://host/README"⟩ =
      ({ Status := .StatusSuccess, Meta := "", Body := some ⟨false, "read me"⟩ },
        [.stat "/srv/gemini/README", .openFile "/srv/gemini/README"]) ∧
    TypeByExtension (exampleWorld siteFs).toLower
      (init (exampleWorld siteFs).toLower (exampleWorld siteFs).sysMime) ".zzz" = "" := by
  decide

/-- C9, amended: for every Success response, meta is `mime.TypeByExtension` of the
extension of the file that was opened; after `init` that lookup yields the gemini content
type `text/gemini; charset=utf-8` for `.gem`, `.gemini` and `.gmi`, whatever the tables
package `mime` started with; and it yields the empty string for every extension that is
none of these three and is in neither table of package `mime`. -/
theorem C9_meta_is_type_by_extension (w : World) (g : GeminiServer) (r : Request) :
    ((_handle w g r).1.Status = .StatusSuccess →
      ∃ filename, (_handle w g r).2.getLast? = some (.openFile filename) ∧
        (_handle w g r).1.Meta =
          TypeByExtension w.toLower (init w.toLower w.sysMime) (Ext filename)) ∧
    (TypeByExtension w.toLower (init w.toLower w.sysMime) ".gem"
        = "text/gemini; charset=utf-8" ∧
      TypeByExtension w.toLower (init w.toLower w.sysMime) ".gemini"
        = "text/gemini; charset=utf-8" ∧
      TypeByExtension w.toLower (init w.toLower w.sysMime) ".gmi"
        = "text/gemini; charset=utf-8") ∧
    (∀ ext, w.sysMime.mimeTypes.lookup ext = none →
      w.sysMime.mimeTypesLower.lookup (lowerExt w.toLower ext) = none →
      ext ≠ ".gem" ∧ ext ≠ ".gemini" ∧ ext ≠ ".gmi" →
      lowerExt w.toLower ext ≠ ".gem" ∧ lowerExt w.toLower ext ≠ ".gemini" ∧
        lowerExt w.toLower ext ≠ ".gmi" →
      TypeByExtension w.toLower (init w.toLower w.sysMime) ext = "") := by
  refine ⟨?_, ⟨rfl, rfl, rfl⟩, ?_⟩
  · have hserve : ∀ fn, (serve w fn).1.Status = .StatusSuccess →
        (serve w fn).1.Meta =
          TypeByExtension w.toLower (init w.toLower w.sysMime) (Ext fn) := by
      intro fn
      simp only [serve]
      cases ho : w.Open fn with
      | error err => cases err <;> simp [IsNotExist, notFound, failure]
      | ok f => simp
    simp only [_handle]
    cases hp : w.urlParse r.URL with
    | error msg => simp
    | ok u =>
      simp only []
      cases hs : w.Stat (Join [g.RootDirectory, u.Path]) with
      | error err =>
        cases err with
        | notExist =>
          by_cases he : Ext (Join [g.RootDirectory, u.Path]) = ""
          · intro h
            refine ⟨Join [g.RootDirectory, u.Path] ++ g.Extension, ?_, ?_⟩
            · simp [IsNotExist, he, after, serve_calls]
            · simpa [IsNotExist, he, after] using
                hserve _ (by simpa [IsNotExist, he, after] using h)
          · simp [IsNotExist, he, notFound]
        | other => simp [IsNotExist]
      | ok info =>
        cases hd : info.IsDir with
        | true =>
          simp only [hd, if_true, after, handleDir]
          cases hi : w.Stat (Join [Join [g.RootDirectory, u.Path],
              g.DefaultFile ++ g.Extension]) with
          | error err => cases err <;> simp [IsNotExist, notFound, failure]
          | ok info2 =>
            cases hd2 : info2.IsDir with
            | true => simp [hd2, failure]
            | false =>
              intro h
              refine ⟨Join [Join [g.RootDirectory, u.Path],
                g.DefaultFile ++ g.Extension], ?_, ?_⟩
              · simp [hd2, after, serve_calls]
              · simpa [hd2, after] using hserve _ (by simpa [hd2, after] using h)
        | false =>
          intro h
          refine ⟨Join [g.RootDirectory, u.Path], ?_, ?_⟩
          · simp [hd, after, serve_calls]
          · simpa [hd, after] using hserve _ (by simpa [hd, after] using h)
  · intro ext h1 h2 h3 h4
    unfold TypeByExtension
    rw [init_mimeTypes, init_mimeTypesLower]
    simp only [List.lookup]
    have e1 : (ext == ".gmi") = false := by simpa using h3.2.2
    have e2 : (ext == ".gemini") = false := by simpa using h3.2.1
    have e3 : (ext == ".gem") = false := by simpa using h3.1
    have l1 : (lowerExt w.toLower ext == ".gmi") = false := by simpa using h4.2.2
    have l2 : (lowerExt w.toLower ext == ".gemini") = false := by simpa using h4.2.1
    have l3 : (lowerExt w.toLower ext == ".gem") = false := by simpa using h4.1
    simp [e1, e2, e3, l1, l2, l3, h1, h2]

/-- On a filesystem snapshot, a body returned for a joined path that exists (the direct
file and the directory index) is never a directory. -/
theorem body_not_dir_of_found (w : World) (fs : String → Node) (g : GeminiServer)
    (r : Request) (u : URL) (f : File) (hu : w.urlParse r.URL = .ok u)
    (hf : fs (Join [g.RootDirectory, u.Path]) ≠ .missing)
    (hb : (_handle (onSnapshot w fs) g r).1.Body = some f) : f.IsDir = false := by
  have hu2 : (onSnapshot w fs).urlParse r.URL = .ok u := hu
  simp only [_handle, hu2] at hb
  cases hn : fs (Join [g.RootDirectory, u.Path]) with
  | missing => exact absurd hn hf
  | unreachable => simp [onSnapshot, statOf, hn, IsNotExist] at hb
  | regular b rd =>
    cases rd <;>
      simp [onSnapshot, statOf, openOf, hn, after, serve, IsNotExist, failure] at hb
    rw [← hb]
  | directory rd =>
    simp only [onSnapshot, statOf, hn, after, handleDir, if_true] at hb
    cases hi : fs (Join [Join [g.RootDirectory, u.Path], g.DefaultFile ++ g.Extension]) with
    | missing => simp [hi, IsNotExist, notFound] at hb
    | unreachable => simp [hi, IsNotExist, failure] at hb
    | directory rd2 => simp [hi, failure] at hb
    | regular b rd2 =>
      cases rd2 <;> simp [hi, serve, openOf, IsNotExist, failure] at hb
      rw [← hb]

/-- C10 fails on the code: on the example site there is no `draft` but a directory
`draft.gem`, and the request for `/draft` takes the extensionless fallback, which opens
`draft.gem` without a stat and returns Success with the gemini content type and the
directory handle as body. -/
theorem C10_fallback_serves_directory :
    siteFs "/srv/gemini/draft" = .missing ∧
    siteFs "/srv/gemini/draft.gem" = .directory true ∧
    _handle (exampleWorld siteFs) siteServer ⟨"gemini://host/draft"⟩ =
      ({ Status := .StatusSuccess, Meta := "text/gemini; charset=utf-8",
         Body := some { IsDir := true, bytes := "" } },
        [.stat "/srv/gemini/draft", .openFile "/srv/gemini/draft.gem"]) := by
  decide

/-- C1 fails on the code: with the root `/srv/gemini`, the request line
`gemini://host/../../etc/passwd` parses to the path `/../../etc/passwd`, the joined path
is `/etc/passwd`, which is neither the cleaned root nor under it, and `_handle` stats,
opens and returns that file. -/
theorem C1_dotdot_leaves_root :
    exampleParse "gemini://host/../../etc/passwd" = .ok ⟨"/../../etc/passwd"⟩ ∧
    Clean siteServer.RootDirectory = "/srv/gemini" ∧
    Join [siteServer.RootDirectory, "/../../etc/passwd"] = "/etc/passwd" ∧
    staysUnder siteServer.RootDirectory
      (Join [siteServer.RootDirectory, "/../../etc/passwd"]) = false ∧
    _handle (exampleWorld siteFs) siteServer ⟨"gemini://host/../../etc/passwd"⟩ =
      ({ Status := .StatusSuccess, Meta := "", Body := some ⟨false, "root:x:0:0"⟩ },
        [.stat "/etc/passwd", .openFile "/etc/passwd"]) := by
  refine ⟨rfl, ?_, ?_, ?_, ?_⟩ <;> decide

end Gemini4me
